import Mathlib

/-!
Verification development for the yatube blogging/social site
(posts, groups, comments, follow graph, paginated feed, home-page cache).

The repository ships its tests and a schema migration; the views and
models they exercise are described by the specification.  The data model
and the operations below are therefore a shallow embedding of that core:
pure functions over an explicit `Store` state, with fallible operations
returning `Except Err Store`.
-/

namespace Yatube

/-- A community: title, description and a URL slug.
The migration `0003_auto_20210614_0529` declares `group.slug` unique. -/
structure Group where
  id : Nat
  title : String
  description : String
  slug : String
deriving Repr, DecidableEq

/-- A post: text body, required author, optional group, creation
timestamp (modelled as a Nat tick) and a numeric identifier assigned at
insertion (ascending). -/
structure Post where
  id : Nat
  text : String
  author : Nat
  group : Option Nat
  created : Nat
deriving Repr, DecidableEq

/-- A comment: text body, the commented post, its author, a creation
timestamp. -/
structure Comment where
  id : Nat
  post : Nat
  author : Nat
  text : String
  created : Nat
deriving Repr, DecidableEq

/-- Routes that an unauthenticated write is redirected away from; the
`Unauthenticated` error carries the originally intended destination. -/
inductive Dest where
  | followRoute (target : Nat)
  | unfollowRoute (target : Nat)
  | commentRoute (postId : Nat)
  | newPostRoute
deriving Repr, DecidableEq

/-- Error kinds of the core (spec section 7). -/
inductive Err where
  | notFound
  | unauthenticated (next : Dest)
  | validationFailed (field : String)
  | selfFollowRejected
deriving Repr, DecidableEq

/-- The persistent store plus the process-wide cache.  `follows` is the
list of directed (follower, author) edges; `cacheIndex` is the cache
entry under the fixed key `index_page` (the rendered home fragment,
modelled as the list of post identifiers it shows), `none` on a miss. -/
structure Store where
  users : List Nat
  groups : List Group
  posts : List Post
  comments : List Comment
  follows : List (Nat × Nat)
  cacheIndex : Option (List Nat)
deriving Repr, DecidableEq

/-- The empty initial store. -/
def Store.empty : Store :=
  { users := [], groups := [], posts := [], comments := [],
    follows := [], cacheIndex := none }

/-- Feed ordering: `feedLe a b` holds when `a` may appear no later than
`b` — newest first by creation timestamp, equal timestamps falling back
to insertion order (post identifier ascending). -/
def feedLe (a b : Post) : Prop :=
  b.created < a.created ∨ (a.created = b.created ∧ a.id ≤ b.id)

instance : DecidableRel feedLe := fun a b =>
  inferInstanceAs (Decidable (b.created < a.created ∨ (a.created = b.created ∧ a.id ≤ b.id)))

instance : IsTotal Post feedLe :=
  ⟨by intro a b; unfold feedLe; omega⟩

instance : IsTrans Post feedLe :=
  ⟨by intro a b c; unfold feedLe; omega⟩

/-- Modelled from the spec: the Feed Builder's reverse-chronological
ordering ("order by created desc", identifier-ascending tie-break); the
view code issuing the ordered query is not in the repository snapshot. -/
def sortFeed (l : List Post) : List Post :=
  l.insertionSort feedLe

/-- Modelled from the spec: the paginator slices an ordered sequence
into fixed-size pages; `page` is 1-based. -/
def paginate (l : List Post) (pageSize page : Nat) : List Post :=
  (l.drop ((page - 1) * pageSize)).take pageSize

/-- Number of pages: the ceiling of `n / pageSize`. -/
def numPages (n pageSize : Nat) : Nat :=
  (n + pageSize - 1) / pageSize

/-- The home-feed scope: all posts, newest first. -/
def feedAll (s : Store) : List Post :=
  sortFeed s.posts

/-- Posts of one group, newest first. -/
def groupPosts (s : Store) (gid : Nat) : List Post :=
  (feedAll s).filter (fun p => p.group = some gid)

/-- The authors followed by `u`. -/
def followedAuthors (s : Store) (u : Nat) : List Nat :=
  (s.follows.filter (fun e => e.1 = u)).map (fun e => e.2)

/-- The followed-authors feed of `u`: the posts whose author `u`
follows, newest first. -/
def followFeed (s : Store) (u : Nat) : List Post :=
  (feedAll s).filter (fun p => decide ((u, p.author) ∈ s.follows))

/-- Modelled from the spec: `follow(follower, target)` — unauthenticated
callers get `Unauthenticated` carrying the destination, self-follow is
rejected, a duplicate edge is idempotent, otherwise the edge is created.
The follow view itself is not in the repository snapshot. -/
def followOp (auth : Option Nat) (target : Nat) (s : Store) : Except Err Store :=
  match auth with
  | none => .error (.unauthenticated (.followRoute target))
  | some u =>
    if u = target then .error .selfFollowRejected
    else if (u, target) ∈ s.follows then .ok s
    else .ok { s with follows := (u, target) :: s.follows }

/-- Modelled from the spec: `unfollow(follower, target)` — removes the
edge if present; removing an absent edge is a no-op, not an error. -/
def unfollowOp (auth : Option Nat) (target : Nat) (s : Store) : Except Err Store :=
  match auth with
  | none => .error (.unauthenticated (.unfollowRoute target))
  | some u => .ok { s with follows := s.follows.filter (fun e => e ≠ (u, target)) }

/-- Modelled from the spec: `addComment(post, author, text)` — requires
an authenticated author and non-empty text, the post must exist;
appends a timestamped comment. -/
def addCommentOp (auth : Option Nat) (postId : Nat) (text : String)
    (cid created : Nat) (s : Store) : Except Err Store :=
  match auth with
  | none => .error (.unauthenticated (.commentRoute postId))
  | some u =>
    if text = "" then .error (.validationFailed "text")
    else if s.posts.any (fun p => p.id = postId) then
      .ok { s with comments := ⟨cid, postId, u, text, created⟩ :: s.comments }
    else .error .notFound

/-- Modelled from the spec: creating a post requires an authenticated
author with non-empty text; the write proactively invalidates the
home-page cache entry (key `index_page`). -/
def createPostOp (auth : Option Nat) (text : String) (grp : Option Nat)
    (pid created : Nat) (s : Store) : Except Err Store :=
  match auth with
  | none => .error (.unauthenticated .newPostRoute)
  | some u =>
    if text = "" then .error (.validationFailed "text")
    else if u ∈ s.users then
      .ok { s with posts := ⟨pid, text, u, grp, created⟩ :: s.posts,
                   cacheIndex := none }
    else .error .notFound

/-- Modelled from the spec and the migration: group creation respects
the unique constraint on `slug` declared by migration
`0003_auto_20210614_0529` (the insert is rejected when the slug is
taken). -/
def createGroupOp (g : Group) (s : Store) : Except Err Store :=
  if s.groups.any (fun h => h.slug = g.slug) then .error (.validationFailed "slug")
  else .ok { s with groups := g :: s.groups }

/-- Registration of a fresh user. -/
def createUserOp (u : Nat) (s : Store) : Except Err Store :=
  if u ∈ s.users then .error (.validationFailed "username")
  else .ok { s with users := u :: s.users }

/-- Deleting a user, with the cascade declared by migration
`0003_auto_20210614_0529` (`post.author`, on_delete=CASCADE): the
user's posts are deleted with the user; their comments and follow edges
go the same way. -/
def deleteUserOp (u : Nat) (s : Store) : Store :=
  { s with users := s.users.filter (fun v => v ≠ u),
           posts := s.posts.filter (fun p => p.author ≠ u),
           comments := s.comments.filter (fun c => c.author ≠ u),
           follows := s.follows.filter (fun e => e.1 ≠ u ∧ e.2 ≠ u) }

/-- Modelled from the spec: serving the home page — a cache hit returns
the cached fragment, a miss rebuilds it from the Feed Builder and
stores it under `index_page`. Returns the rendered fragment (the post
identifiers shown) and the updated store. -/
def fetchIndexOp (s : Store) : List Nat × Store :=
  match s.cacheIndex with
  | some frag => (frag, s)
  | none =>
    let frag := (feedAll s).map (fun p => p.id)
    (frag, { s with cacheIndex := some frag })

/-- Modelled from the spec: the group page — an unknown slug is a
not-found condition, otherwise the group's posts are paginated with
page size 10. -/
def groupPageOp (s : Store) (slug : String) (page : Nat) :
    Except Err (Group × List Post) :=
  match s.groups.find? (fun g => g.slug = slug) with
  | none => .error .notFound
  | some g => .ok (g, paginate (groupPosts s g.id) 10 page)

/-- The boundary applies an operation's result to the store: an error
outcome leaves the store unchanged. -/
def applyOp (s : Store) (r : Except Err Store) : Store :=
  match r with
  | .ok t => t
  | .error _ => s

/-- The states reachable from the empty store by the core's
operations (only successful writes change the state). -/
inductive Reachable : Store → Prop where
  | init : Reachable Store.empty
  | createUser {s t u} : Reachable s → createUserOp u s = .ok t → Reachable t
  | createGroup {s t g} : Reachable s → createGroupOp g s = .ok t → Reachable t
  | createPost {s t a text grp pid created} : Reachable s →
      createPostOp a text grp pid created s = .ok t → Reachable t
  | addComment {s t a postId text cid created} : Reachable s →
      addCommentOp a postId text cid created s = .ok t → Reachable t
  | follow {s t a target} : Reachable s → followOp a target s = .ok t → Reachable t
  | unfollow {s t a target} : Reachable s → unfollowOp a target s = .ok t → Reachable t
  | deleteUser {s u} : Reachable s → Reachable (deleteUserOp u s)
  | fetchIndex {s} : Reachable s → Reachable (fetchIndexOp s).2

/-! ### Inversion lemmas for successful operations -/

theorem createUserOp_ok {u : Nat} {s t : Store} (h : createUserOp u s = .ok t) :
    t = { s with users := u :: s.users } := by
  unfold createUserOp at h
  split at h
  · exact absurd h (by simp)
  · exact (Except.ok.injEq _ _ ▸ h).symm

theorem createGroupOp_ok {g : Group} {s t : Store} (h : createGroupOp g s = .ok t) :
    t = { s with groups := g :: s.groups } ∧ ∀ g2 ∈ s.groups, g2.slug ≠ g.slug := by
  unfold createGroupOp at h
  split at h
  · exact absurd h (by simp)
  · next hany =>
    refine ⟨(Except.ok.injEq _ _ ▸ h).symm, ?_⟩
    intro g2 hg2
    simp only [List.any_eq_true, not_exists, not_and] at hany
    push_neg at hany
    simpa using hany g2 hg2

theorem createPostOp_ok {a : Option Nat} {text : String} {grp : Option Nat}
    {pid created : Nat} {s t : Store}
    (h : createPostOp a text grp pid created s = .ok t) :
    ∃ u, a = some u ∧ u ∈ s.users ∧
      t = { s with posts := ⟨pid, text, u, grp, created⟩ :: s.posts,
                   cacheIndex := none } := by
  unfold createPostOp at h
  match a with
  | none => exact absurd h (by simp)
  | some u =>
    simp only at h
    split at h
    · exact absurd h (by simp)
    · split at h
      · next hmem => exact ⟨u, rfl, hmem, (Except.ok.injEq _ _ ▸ h).symm⟩
      · exact absurd h (by simp)

theorem addCommentOp_ok {a : Option Nat} {postId : Nat} {text : String}
    {cid created : Nat} {s t : Store}
    (h : addCommentOp a postId text cid created s = .ok t) :
    ∃ u, a = some u ∧
      t = { s with comments := ⟨cid, postId, u, text, created⟩ :: s.comments } := by
  unfold addCommentOp at h
  match a with
  | none => exact absurd h (by simp)
  | some u =>
    simp only at h
    split at h
    · exact absurd h (by simp)
    · split at h
      · exact ⟨u, rfl, (Except.ok.injEq _ _ ▸ h).symm⟩
      · exact absurd h (by simp)

theorem followOp_ok {a : Option Nat} {target : Nat} {s t : Store}
    (h : followOp a target s = .ok t) :
    ∃ u, a = some u ∧ u ≠ target ∧
      (t = s ∨ t = { s with follows := (u, target) :: s.follows }) := by
  unfold followOp at h
  match a with
  | none => exact absurd h (by simp)
  | some u =>
    simp only at h
    split at h
    · exact absurd h (by simp)
    · next hne =>
      split at h
      · exact ⟨u, rfl, hne, Or.inl (Except.ok.injEq _ _ ▸ h).symm⟩
      · exact ⟨u, rfl, hne, Or.inr (Except.ok.injEq _ _ ▸ h).symm⟩

theorem unfollowOp_ok {a : Option Nat} {target : Nat} {s t : Store}
    (h : unfollowOp a target s = .ok t) :
    ∃ u, a = some u ∧
      t = { s with follows := s.follows.filter (fun e => e ≠ (u, target)) } := by
  unfold unfollowOp at h
  match a with
  | none => exact absurd h (by simp)
  | some u => exact ⟨u, rfl, (Except.ok.injEq _ _ ▸ h).symm⟩

/-! ### Reachability invariants -/

theorem reachable_no_self_edge {s : Store} (h : Reachable s) :
    ∀ u, (u, u) ∉ s.follows := by
  induction h with
  | init => intro u hu; simp [Store.empty] at hu
  | createUser _ hop ih => rw [createUserOp_ok hop]; exact ih
  | createGroup _ hop ih => rw [(createGroupOp_ok hop).1]; exact ih
  | createPost _ hop ih =>
    obtain ⟨u, _, _, ht⟩ := createPostOp_ok hop
    rw [ht]; exact ih
  | addComment _ hop ih =>
    obtain ⟨u, _, ht⟩ := addCommentOp_ok hop
    rw [ht]; exact ih
  | follow _ hop ih =>
    obtain ⟨u, _, hne, ht | ht⟩ := followOp_ok hop
    · rw [ht]; exact ih
    · rw [ht]
      intro v hv
      rcases List.mem_cons.mp hv with heq | hmem
      · exact hne (by cases heq; rfl)
      · exact ih v hmem
  | unfollow _ hop ih =>
    obtain ⟨u, _, ht⟩ := unfollowOp_ok hop
    rw [ht]
    intro v hv
    exact ih v (List.mem_of_mem_filter hv)
  | deleteUser _ ih =>
    intro v hv
    exact ih v (List.mem_of_mem_filter hv)
  | fetchIndex _ ih =>
    intro v hv
    unfold fetchIndexOp at hv
    split at hv
    · exact ih v hv
    · exact ih v hv

theorem reachable_slug_nodup {s : Store} (h : Reachable s) :
    (s.groups.map (fun g => g.slug)).Nodup := by
  induction h with
  | init => simp [Store.empty]
  | createUser _ hop ih => rw [createUserOp_ok hop]; exact ih
  | createGroup _ hop ih =>
    obtain ⟨ht, hfresh⟩ := createGroupOp_ok hop
    rw [ht]
    simp only [List.map_cons, List.nodup_cons]
    refine ⟨?_, ih⟩
    intro hmem
    obtain ⟨g2, hg2, heq⟩ := List.mem_map.mp hmem
    exact hfresh g2 hg2 heq
  | createPost _ hop ih =>
    obtain ⟨u, _, _, ht⟩ := createPostOp_ok hop
    rw [ht]; exact ih
  | addComment _ hop ih =>
    obtain ⟨u, _, ht⟩ := addCommentOp_ok hop
    rw [ht]; exact ih
  | follow _ hop ih =>
    obtain ⟨u, _, _, ht | ht⟩ := followOp_ok hop <;> (rw [ht]; exact ih)
  | unfollow _ hop ih =>
    obtain ⟨u, _, ht⟩ := unfollowOp_ok hop
    rw [ht]; exact ih
  | deleteUser _ ih => exact ih
  | fetchIndex _ ih =>
    unfold fetchIndexOp
    split
    · exact ih
    · exact ih

theorem reachable_author_exists {s : Store} (h : Reachable s) :
    ∀ p ∈ s.posts, p.author ∈ s.users := by
  induction h with
  | init => intro p hp; simp [Store.empty] at hp
  | createUser _ hop ih =>
    rw [createUserOp_ok hop]
    intro p hp
    exact List.mem_cons_of_mem _ (ih p hp)
  | createGroup _ hop ih => rw [(createGroupOp_ok hop).1]; exact ih
  | createPost _ hop ih =>
    obtain ⟨u, _, hu, ht⟩ := createPostOp_ok hop
    rw [ht]
    intro p hp
    rcases List.mem_cons.mp hp with heq | hmem
    · rw [heq]; exact hu
    · exact ih p hmem
  | addComment _ hop ih =>
    obtain ⟨u, _, ht⟩ := addCommentOp_ok hop
    rw [ht]; exact ih
  | follow _ hop ih =>
    obtain ⟨u, _, _, ht | ht⟩ := followOp_ok hop <;> (rw [ht]; exact ih)
  | unfollow _ hop ih =>
    obtain ⟨u, _, ht⟩ := unfollowOp_ok hop
    rw [ht]; exact ih
  | deleteUser _ ih =>
    intro p hp
    obtain ⟨hmem, hne⟩ := List.mem_filter.mp hp
    exact List.mem_filter.mpr ⟨ih p hmem, by simpa using of_decide_eq_true hne⟩
  | fetchIndex _ ih =>
    unfold fetchIndexOp
    split
    · exact ih
    · exact ih

/-! ### Pagination lemmas -/

theorem paginate_flatten (pageSize : Nat) (l : List Post) :
    ∀ k, ((List.range k).map (fun i => paginate l pageSize (i + 1))).flatten
      = l.take (k * pageSize) := by
  intro k
  induction k with
  | zero => simp
  | succ k ih =>
    rw [List.range_succ, List.map_append, List.flatten_append]
    simp only [List.map_cons, List.map_nil, List.flatten_cons, List.flatten_nil,
      List.append_nil]
    have hpag : paginate l pageSize (k + 1) = (l.drop (k * pageSize)).take pageSize := by
      simp [paginate]
    rw [ih, hpag, Nat.succ_mul, List.take_add]

theorem paginate_length_le (l : List Post) (pageSize page : Nat) :
    (paginate l pageSize page).length ≤ pageSize := by
  simp [paginate, List.length_take]

/-- C1: for every store, the home feed's pages (page size 10) each hold
at most 10 posts and, concatenated over the ⌈N/10⌉ pages, reproduce the
full reverse-chronological sequence; with exactly 15 posts page 1 holds
10 posts and page 2 the remaining 5. -/
theorem feed_pages_partition (s : Store) :
    (((List.range (numPages (feedAll s).length 10)).map
        (fun i => paginate (feedAll s) 10 (i + 1))).flatten = feedAll s)
    ∧ (∀ page, (paginate (feedAll s) 10 page).length ≤ 10)
    ∧ ((feedAll s).length = 15 →
        (paginate (feedAll s) 10 1).length = 10 ∧
        (paginate (feedAll s) 10 2).length = 5) := by
  refine ⟨?_, fun page => paginate_length_le _ _ _, ?_⟩
  · rw [paginate_flatten]
    apply List.take_of_length_le
    unfold numPages
    omega
  · intro h15
    constructor
    · simp [paginate, List.length_take, List.length_drop, h15]
    · simp [paginate, List.length_take, List.length_drop, h15]

/-- Concrete 15-post store exercising the paginator scenario of C1. -/
def store15 : Store :=
  { Store.empty with
    users := [0],
    posts := (List.range 15).map (fun i => ⟨i, "t", 0, none, i⟩) }

/-- Witness for C1 at a store holding exactly 15 posts. -/
theorem feed_pages_partition_witness :
    (feedAll store15).length = 15 ∧
    (paginate (feedAll store15) 10 1).length = 10 ∧
    (paginate (feedAll store15) 10 2).length = 5 :=
  ⟨by decide, (feed_pages_partition store15).2.2 (by decide)⟩

/-- C2: a successful post creation clears the home-page cache entry
(key `index_page`), so the next home-page request rebuilds the feed and
its rendered fragment includes the new post. -/
theorem create_post_invalidates_cache {s t : Store} {u pid created : Nat}
    {text : String} {grp : Option Nat}
    (h : createPostOp (some u) text grp pid created s = .ok t) :
    t.cacheIndex = none ∧ pid ∈ (fetchIndexOp t).1 := by
  obtain ⟨v, hv, hmem, ht⟩ := createPostOp_ok h
  injection hv with hv
  subst hv
  subst ht
  refine ⟨rfl, ?_⟩
  simp only [fetchIndexOp]
  apply List.mem_map.mpr
  refine ⟨⟨pid, text, u, grp, created⟩, ?_, rfl⟩
  exact (List.perm_insertionSort feedLe _).mem_iff.mpr (List.mem_cons_self _ _)

/-- The store before the C2 witness post creation. -/
def storeU : Store := { Store.empty with users := [0] }

/-- The store after the C2 witness post creation. -/
def storeUP : Store :=
  { users := [0], groups := [], posts := [⟨1, "t", 0, none, 0⟩],
    comments := [], follows := [], cacheIndex := none }

/-- Witness for C2: one concrete post creation clears the cache and the
rebuilt home page shows the new post. -/
theorem create_post_invalidates_cache_witness :
    storeUP.cacheIndex = none ∧ 1 ∈ (fetchIndexOp storeUP).1 :=
  create_post_invalidates_cache
    (show createPostOp (some 0) "t" none 1 0 storeU = .ok storeUP from rfl)

/-- Strict feed ordering: `a` strictly precedes `b` — newer, or equal
timestamps with smaller identifier. -/
def feedLt (a b : Post) : Prop :=
  b.created < a.created ∨ (a.created = b.created ∧ a.id < b.id)

instance : DecidableRel feedLt := fun a b =>
  inferInstanceAs (Decidable (b.created < a.created ∨ (a.created = b.created ∧ a.id < b.id)))

instance : IsAntisymm Post feedLt :=
  ⟨by intro a b h1 h2; exfalso; unfold feedLt at h1 h2; omega⟩

/-- C3: the feed is a permutation of the scope's posts, pairwise ordered
newest first with identifier-ascending tie-break on equal timestamps;
when identifiers are distinct this order is deterministic — any
permutation listed in that order is the feed itself. -/
theorem feed_order_newest_first (l : List Post) :
    (sortFeed l).Perm l ∧
    (sortFeed l).Pairwise
      (fun a b => b.created < a.created ∨ (a.created = b.created ∧ a.id ≤ b.id)) ∧
    (∀ l2 : List Post, (l.map (fun p => p.id)).Nodup → l2.Perm (sortFeed l) →
      l2.Pairwise (fun a b => b.created < a.created ∨ (a.created = b.created ∧ a.id < b.id)) →
      l2 = sortFeed l) := by
  refine ⟨List.perm_insertionSort feedLe l, List.sorted_insertionSort feedLe l, ?_⟩
  intro l2 hnd hperm hsorted
  have hnd2 : ((sortFeed l).map (fun p => p.id)).Nodup :=
    (((List.perm_insertionSort feedLe l).map (fun p => p.id)).nodup_iff).mpr hnd
  have hpairne : (sortFeed l).Pairwise (fun a b => a.id ≠ b.id) :=
    List.pairwise_map.mp hnd2
  have hle : (sortFeed l).Pairwise feedLe := List.sorted_insertionSort feedLe l
  have hlt : (sortFeed l).Pairwise feedLt := by
    have hand := hle.and hpairne
    exact hand.imp (by intro a b hab; simp only [feedLe, feedLt] at hab ⊢; omega)
  exact List.eq_of_perm_of_sorted hperm (show List.Sorted feedLt l2 from hsorted) hlt

/-- Three posts with one timestamp tie, exercising the C3 ordering. -/
def demoPosts : List Post :=
  [⟨1, "a", 0, none, 5⟩, ⟨2, "b", 0, none, 5⟩, ⟨3, "c", 0, none, 7⟩]

/-- Witness for C3 on a concrete feed with a timestamp tie: the sorted
feed is newest first, tie broken by ascending identifier, and it is the
unique such arrangement. -/
theorem feed_order_newest_first_witness :
    (sortFeed demoPosts).Perm demoPosts ∧
    [Post.mk 3 "c" 0 none 7, Post.mk 1 "a" 0 none 5, Post.mk 2 "b" 0 none 5]
      = sortFeed demoPosts :=
  ⟨(feed_order_newest_first demoPosts).1,
   (feed_order_newest_first demoPosts).2.2
     [Post.mk 3 "c" 0 none 7, Post.mk 1 "a" 0 none 5, Post.mk 2 "b" 0 none 5]
     (by decide) (by decide) (by decide)⟩

/-- C4: from any state without the edge, follow then unfollow by the
same distinct pair restores the exact pre-follow store, and a further
unfollow of the now-absent edge succeeds without changing anything. -/
theorem follow_unfollow_roundtrip (s : Store) (u t : Nat)
    (hne : u ≠ t) (habs : (u, t) ∉ s.follows) :
    followOp (some u) t s = .ok { s with follows := (u, t) :: s.follows } ∧
    unfollowOp (some u) t { s with follows := (u, t) :: s.follows } = .ok s ∧
    unfollowOp (some u) t s = .ok s := by
  have hfilter : s.follows.filter (fun e => e ≠ (u, t)) = s.follows := by
    apply List.filter_eq_self.mpr
    intro e he
    simp only [ne_eq, decide_eq_true_eq]
    intro heq
    exact habs (heq ▸ he)
  refine ⟨?_, ?_, ?_⟩
  · simp [followOp, hne, habs]
  · simp only [unfollowOp]
    congr 1
    rw [List.filter_cons_of_neg (by simp), hfilter]
  · simp only [unfollowOp]
    congr 1
    rw [hfilter]

/-- Witness for C4 at the empty store with users 0 and 1. -/
theorem follow_unfollow_roundtrip_witness :
    followOp (some 0) 1 Store.empty
        = .ok { Store.empty with follows := [(0, 1)] } ∧
    unfollowOp (some 0) 1 { Store.empty with follows := [(0, 1)] }
        = .ok Store.empty ∧
    unfollowOp (some 0) 1 Store.empty = .ok Store.empty :=
  follow_unfollow_roundtrip Store.empty 0 1 (by decide) (by decide)

/-- C5: an unauthenticated follow or comment attempt yields the
`Unauthenticated` outcome carrying the intended destination, and the
boundary leaves the store — hence every record count — unchanged. -/
theorem unauthenticated_writes_rejected (s : Store) (target postId cid created : Nat)
    (text : String) :
    followOp none target s = .error (.unauthenticated (.followRoute target)) ∧
    addCommentOp none postId text cid created s
      = .error (.unauthenticated (.commentRoute postId)) ∧
    applyOp s (followOp none target s) = s ∧
    applyOp s (addCommentOp none postId text cid created s) = s :=
  ⟨rfl, rfl, rfl, rfl⟩

/-- C6: the group page is `NotFound` exactly when no group carries the
slug; a matching group with zero posts yields an empty page, and a page
number beyond the available pages yields an empty sequence, never an
error. -/
theorem group_page_edge_cases (s : Store) (slug : String) (page : Nat) :
    ((∀ g ∈ s.groups, g.slug ≠ slug) → groupPageOp s slug page = .error .notFound) ∧
    (∀ g, s.groups.find? (fun h => h.slug = slug) = some g →
      groupPosts s g.id = [] → groupPageOp s slug page = .ok (g, [])) ∧
    (∀ g, s.groups.find? (fun h => h.slug = slug) = some g →
      numPages (groupPosts s g.id).length 10 < page →
      groupPageOp s slug page = .ok (g, [])) := by
  refine ⟨?_, ?_, ?_⟩
  · intro hno
    have hfind : s.groups.find? (fun h => h.slug = slug) = none := by
      apply List.find?_eq_none.mpr
      intro g hg
      simpa using hno g hg
    simp [groupPageOp, hfind]
  · intro g hfind hempty
    simp [groupPageOp, hfind, hempty, paginate]
  · intro g hfind hbeyond
    have hnil : paginate (groupPosts s g.id) 10 page = [] := by
      unfold paginate
      have hdrop : (groupPosts s g.id).drop ((page - 1) * 10) = [] := by
        apply List.drop_eq_nil_of_le
        unfold numPages at hbeyond
        omega
      rw [hdrop, List.take_nil]
    simp [groupPageOp, hfind, hnil]

/-- The test group with slug `test-slug` and no posts. -/
def groupG : Group := ⟨5, "T", "D", "test-slug"⟩

/-- A store holding `groupG` and nothing else. -/
def storeG : Store := { Store.empty with groups := [groupG] }

/-- Witness for C6: unknown slug is `NotFound`; the empty group's page 1
and an out-of-range page 5 are both the empty page. -/
theorem group_page_edge_cases_witness :
    groupPageOp storeG "nope" 1 = .error .notFound ∧
    groupPageOp storeG "test-slug" 1 = .ok (groupG, []) ∧
    groupPageOp storeG "test-slug" 5 = .ok (groupG, []) :=
  ⟨(group_page_edge_cases storeG "nope" 1).1 (by decide),
   (group_page_edge_cases storeG "test-slug" 1).2.1 groupG (by decide) (by decide),
   (group_page_edge_cases storeG "test-slug" 5).2.2 groupG (by decide) (by decide)⟩

/-- C7: a self-follow is rejected with `SelfFollowRejected` and creates
nothing, so no reachable store contains a self-edge in the Follow
Graph. -/
theorem self_follow_never_edge :
    (∀ (u : Nat) (s : Store), followOp (some u) u s = .error .selfFollowRejected) ∧
    (∀ s : Store, Reachable s → ∀ u : Nat, (u, u) ∉ s.follows) :=
  ⟨fun u s => by simp [followOp], fun s hs => reachable_no_self_edge hs⟩

/-- Witness for C7 at the empty store and user 0. -/
theorem self_follow_never_edge_witness :
    followOp (some 0) 0 Store.empty = .error .selfFollowRejected ∧
    (0, 0) ∉ Store.empty.follows :=
  ⟨self_follow_never_edge.1 0 Store.empty,
   self_follow_never_edge.2 Store.empty Reachable.init 0⟩

/-- C8: the followed-authors feed of `u` contains a post exactly when
the post is stored and its author is followed by `u`; in particular
with a single stored post the feed is that post when its author is
followed and empty otherwise. -/
theorem follow_feed_membership (s : Store) (u : Nat) :
    (∀ p : Post, p ∈ followFeed s u ↔ p ∈ s.posts ∧ (u, p.author) ∈ s.follows) ∧
    (∀ q : Post, s.posts = [q] → (u, q.author) ∈ s.follows → followFeed s u = [q]) ∧
    (∀ q : Post, s.posts = [q] → (u, q.author) ∉ s.follows → followFeed s u = []) := by
  refine ⟨?_, ?_, ?_⟩
  · intro p
    simp only [followFeed, List.mem_filter, decide_eq_true_eq, feedAll, sortFeed]
    rw [(List.perm_insertionSort feedLe s.posts).mem_iff]
  · intro q hposts hfol
    simp [followFeed, feedAll, sortFeed, hposts, hfol]
  · intro q hposts hfol
    simp [followFeed, feedAll, sortFeed, hposts, hfol]

/-- A store in which user 1 has one post and user 0 follows user 1. -/
def storeF : Store :=
  { Store.empty with
    users := [0, 1],
    posts := [⟨1, "p", 1, none, 0⟩],
    follows := [(0, 1)] }

/-- Witness for C8: follower 0 sees user 1's only post, the unrelated
user 2 sees an empty followed feed. -/
theorem follow_feed_membership_witness :
    followFeed storeF 0 = [Post.mk 1 "p" 1 none 0] ∧ followFeed storeF 2 = [] :=
  ⟨(follow_feed_membership storeF 0).2.1 (Post.mk 1 "p" 1 none 0) rfl (by decide),
   (follow_feed_membership storeF 2).2.2 (Post.mk 1 "p" 1 none 0) rfl (by decide)⟩

/-- C9: in every reachable store the group slugs are pairwise distinct,
so a slug identifies at most one group. -/
theorem group_slugs_unique (s : Store) (h : Reachable s) :
    (s.groups.map (fun g => g.slug)).Nodup ∧
    ∀ g1 ∈ s.groups, ∀ g2 ∈ s.groups, g1.slug = g2.slug → g1 = g2 := by
  have hnd := reachable_slug_nodup h
  exact ⟨hnd, fun g1 h1 g2 h2 heq => List.inj_on_of_nodup_map hnd h1 h2 heq⟩

/-- Witness for C9 at the reachable store holding one created group. -/
theorem group_slugs_unique_witness :
    (storeG.groups.map (fun g => g.slug)).Nodup :=
  (group_slugs_unique storeG
    (Reachable.createGroup Reachable.init
      (show createGroupOp groupG Store.empty = .ok storeG from rfl))).1

/-- C10: in every reachable store each post's author is a stored user;
deleting a user cascades away all their posts, and the authorship
integrity still holds in the cascaded store. -/
theorem posts_author_integrity (s : Store) (h : Reachable s) :
    (∀ p ∈ s.posts, p.author ∈ s.users) ∧
    (∀ u : Nat, ∀ p : Post, p.author = u → p ∉ (deleteUserOp u s).posts) ∧
    (∀ u : Nat, ∀ p ∈ (deleteUserOp u s).posts, p.author ∈ (deleteUserOp u s).users) := by
  refine ⟨reachable_author_exists h, ?_, ?_⟩
  · intro u p hpu hmem
    have hne := (List.mem_filter.mp hmem).2
    simp only [decide_eq_true_eq] at hne
    exact hne hpu
  · intro u p hmem
    exact reachable_author_exists (Reachable.deleteUser h) p hmem

/-- Witness for C10 at the reachable store with one user and one post:
the post's author is stored, and deleting author 0 removes the post. -/
theorem posts_author_integrity_witness :
    (Post.mk 1 "t" 0 none 0).author ∈ storeUP.users ∧
    Post.mk 1 "t" 0 none 0 ∉ (deleteUserOp 0 storeUP).posts :=
  ⟨(posts_author_integrity storeUP
      (Reachable.createPost
        (Reachable.createUser Reachable.init
          (show createUserOp 0 Store.empty = .ok storeU from rfl))
        (show createPostOp (some 0) "t" none 1 0 storeU = .ok storeUP from rfl))).1
      (Post.mk 1 "t" 0 none 0) (by decide),
   (posts_author_integrity storeUP
      (Reachable.createPost
        (Reachable.createUser Reachable.init
          (show createUserOp 0 Store.empty = .ok storeU from rfl))
        (show createPostOp (some 0) "t" none 1 0 storeU = .ok storeUP from rfl))).2.1
      0 (Post.mk 1 "t" 0 none 0) rfl⟩

end Yatube
